import Mathlib

/-!
Shallow embedding of the toy payments engine (`src/main.rs`).

Monetary amounts are embedded as exact rationals (the spec mandates
four-decimal fixed precision; the source stores them in `f32` fields and
this development idealises that arithmetic as exact).  The two hash maps
of the engine (`client_account`, `transaction_under_dispute`) are embedded
as an association list and a duplicate-free list of indices: lookup,
entry-or-insert, insert and remove mirror the `HashMap` operations
extensionally.  The `return Err(..)` on insufficient funds and the
`unwrap()` panic on an unparsable `kind` string both abort the processing
loop; they are embedded as the two constructors of `ProcError`, and the
engine state reached at the abort point is kept alongside the error.
-/

namespace ToyPayments

/-- One input event, from `struct Transaction` in `src/main.rs`.
`kind` is a plain string there (serde decodes any string; it is parsed
into `TransactionType` only inside the processing loop). -/
structure Transaction where
  kind : String
  client_id : Nat
  transaction_id : Nat
  amount : ℚ
  deriving DecidableEq, Repr

/-- Per-client account, from `struct Account` in `src/main.rs`. -/
structure Account where
  client_id : Nat
  available : ℚ
  held : ℚ
  total : ℚ
  locked : Bool
  deriving DecidableEq, Repr

/-- `Account::default()` with a given client id, as built by the
`or_insert_with` closure in `process_transactions`. -/
def Account.fresh (c : Nat) : Account :=
  { client_id := c, available := 0, held := 0, total := 0, locked := false }

/-- `enum TransactionType` from `src/main.rs`. -/
inductive TransactionType where
  | deposit
  | withdrawal
  | dispute
  | resolve
  | chargeback
  deriving DecidableEq, Repr

/-- `impl FromStr for TransactionType` from `src/main.rs`: the five
recognised strings; any other string is an error (the Rust code wraps the
offending string in a message; the offending string itself is carried
here). -/
def TransactionType.from_str (s : String) : Except String TransactionType :=
  match s with
  | "deposit" => .ok .deposit
  | "withdrawal" => .ok .withdrawal
  | "dispute" => .ok .dispute
  | "resolve" => .ok .resolve
  | "chargeback" => .ok .chargeback
  | _ => .error s

/-- Engine state, from `struct Engine`: `client_account` is a
`HashMap<ClientID, Account>` (an association list here; iteration order of
the Rust map is arbitrary, no claim below depends on the order of this
list), `transaction_under_dispute` is a `HashMap<TransactionIndex, bool>`
whose stored value is always `true`, so it is a set of stream indices. -/
structure Engine where
  client_account : List (Nat × Account)
  transaction_under_dispute : List Nat
  deriving DecidableEq, Repr

/-- `Engine::default()`. -/
def Engine.init : Engine := ⟨[], []⟩

/-- The two ways `process_transactions` aborts: the `Err` return for an
insufficient withdrawal (carrying the client id the Rust message names),
and the `unwrap()` panic on a kind string outside the five variants
(carrying the string). -/
inductive ProcError where
  | insufficientFunds (client_id : Nat)
  | invalidKind (kind : String)
  deriving DecidableEq, Repr

/-- Lookup in the association list embedding `client_account`: the value
of the first entry with the given key. -/
def lookupAccount : List (Nat × Account) → Nat → Option Account
  | [], _ => none
  | p :: ps, c => if p.1 = c then some p.2 else lookupAccount ps c

/-- Update of the association list embedding `client_account`: apply `f`
to every entry with the given key (a `HashMap` holds at most one). -/
def updateEntries : List (Nat × Account) → Nat → (Account → Account) → List (Nat × Account)
  | [], _, _ => []
  | p :: ps, c, f =>
      (if p.1 = c then (p.1, f p.2) else p) :: updateEntries ps c f

/-- `HashMap::get` on `client_account`. -/
def getAccount (e : Engine) (c : Nat) : Option Account :=
  lookupAccount e.client_account c

/-- `self.client_account.entry(tr.client_id).or_insert_with(..)`: keep the
existing entry, or add a fresh zero-balance account for `c`. -/
def ensureAccount (e : Engine) (c : Nat) : Engine :=
  match getAccount e c with
  | some _ => e
  | none => { e with client_account := e.client_account ++ [(c, Account.fresh c)] }

/-- Mutation of the account entry for `c` through the `entry` reference:
apply `f` to the account stored under key `c`, leaving other entries
untouched. -/
def updateAccount (e : Engine) (c : Nat) (f : Account → Account) : Engine :=
  { e with client_account := updateEntries e.client_account c f }

/-- `transactions.iter().position(|t| t.transaction_id == tid)` together
with the `transactions[idx]` access: the first transaction of the whole
slice carrying `tid`, with its index. -/
def findTx : List Transaction → Nat → Nat → Option (Nat × Transaction)
  | [], _, _ => none
  | t :: ts, tid, i =>
      if t.transaction_id = tid then some (i, t) else findTx ts tid (i + 1)

/-- `self.transaction_under_dispute.insert(idx, true)` (value is always
`true`, so this is set insertion). -/
def regInsert (reg : List Nat) (idx : Nat) : List Nat :=
  if idx ∈ reg then reg else idx :: reg

/-- The kind dispatch of one loop iteration of
`Engine::process_transactions`, acting on the state in which the
`entry(..).or_insert_with(..)` has already run (so `tr.client_id` has an
account).  `all` is the full slice the loop received — the `position`
lookups of the dispute/resolve/chargeback arms scan it in its entirety.
Returns the engine state after the iteration and `some` error when the
iteration aborts the loop (the `Err` return or the `unwrap()` panic). -/
def dispatchTx (all : List Transaction) (e : Engine) (tr : Transaction) :
    Engine × Option ProcError :=
  match TransactionType.from_str tr.kind with
  | .error s => (e, some (.invalidKind s))
  | .ok .deposit =>
      (updateAccount e tr.client_id (fun a =>
        { a with available := a.available + tr.amount,
                 total := a.total + tr.amount }), none)
  | .ok .withdrawal =>
      match getAccount e tr.client_id with
      | none => (e, none)
      | some a =>
          if a.available < tr.amount then
            (e, some (.insufficientFunds a.client_id))
          else
            (updateAccount e tr.client_id (fun a =>
              { a with available := a.available - tr.amount,
                       total := a.total - tr.amount }), none)
  | .ok .dispute =>
      match findTx all tr.transaction_id 0 with
      | none => (e, none)
      | some (idx, orig) =>
          ({ updateAccount e tr.client_id (fun a =>
              { a with available := a.available - orig.amount,
                       held := a.held + orig.amount }) with
             transaction_under_dispute :=
               regInsert e.transaction_under_dispute idx }, none)
  | .ok .resolve =>
      match findTx all tr.transaction_id 0 with
      | none => (e, none)
      | some (idx, orig) =>
          if idx ∈ e.transaction_under_dispute then
            ({ updateAccount e tr.client_id (fun a =>
                { a with available := a.available + orig.amount,
                         held := a.held - orig.amount }) with
               transaction_under_dispute :=
                 e.transaction_under_dispute.erase idx }, none)
          else (e, none)
  | .ok .chargeback =>
      match findTx all tr.transaction_id 0 with
      | none => (e, none)
      | some (idx, orig) =>
          if idx ∈ e.transaction_under_dispute then
            ({ updateAccount e tr.client_id (fun a =>
                { a with held := a.held - orig.amount,
                         total := a.total - orig.amount,
                         locked := true }) with
               transaction_under_dispute :=
                 e.transaction_under_dispute.erase idx }, none)
          else (e, none)

/-- One iteration of the `for tr in transactions` loop: the
`entry(tr.client_id).or_insert_with(..)` runs first (lazy account
creation for every kind of transaction), then the parsed kind is
dispatched. -/
def applyTx (all : List Transaction) (e : Engine) (tr : Transaction) :
    Engine × Option ProcError :=
  dispatchTx all (ensureAccount e tr.client_id) tr

/-- The processing loop from engine state `e` over the remaining
transactions `rest`, with lookups against the full slice `all`; stops at
the first aborting iteration, keeping the state reached there. -/
def processFrom (all : List Transaction) (e : Engine) :
    List Transaction → Engine × Option ProcError
  | [] => (e, none)
  | tr :: rest =>
      match applyTx all e tr with
      | (e', none) => processFrom all e' rest
      | (e', some er) => (e', some er)

/-- `Engine::process_transactions` called on a fresh `Engine::default()`,
as `main` does: process the whole stream, lookups against the whole
stream. -/
def process_transactions (txs : List Transaction) : Engine × Option ProcError :=
  processFrom txs Engine.init txs

/-- `Engine::get_accounts`: the accounts of the `client_account` map.  The
Rust code iterates a `std::collections::HashMap`, whose order is governed
by a per-process random hash seed; this embedding can only fix one order
(insertion order) — that gap is exactly what claim C8 is about. -/
def get_accounts (e : Engine) : List Account :=
  e.client_account.map Prod.snd

/-- A decimal digit as a character. -/
def digitChar (d : Nat) : Char := Char.ofNat (48 + d)

/-- Decimal rendering of a natural number (fuelled structural recursion,
so that proofs can evaluate it; the fuel bounds the digit count). -/
def natStrAux : Nat → Nat → String
  | 0, _ => ""
  | fuel + 1, n =>
      if n < 10 then String.mk [digitChar n]
      else natStrAux fuel (n / 10) ++ String.mk [digitChar (n % 10)]

/-- Decimal rendering of a natural number, as the CSV writer prints
client ids. -/
def natStr (n : Nat) : String := natStrAux 10 n

/-- Left-pad a numeral string to four digits, for the fractional part. -/
def padFour (s : String) : String :=
  String.mk (List.replicate (4 - s.length) '0') ++ s

/-- The `four_precision_number_format` serializer: render a rational with
exactly four digits after the decimal point (Rust
`format!("{number:.4}")`, rounding to nearest). -/
def four_precision_number_format (q : ℚ) : String :=
  let n : ℤ := round (q * 10000)
  let sign := if n < 0 then "-" else ""
  let m := n.natAbs
  sign ++ natStr (m / 10000) ++ "." ++ padFour (natStr (m % 10000))

/-- One CSV row of `write_accounts`, from the serde field order of
`struct Account`: client, available, held, total, locked. -/
def accountRow (a : Account) : String :=
  natStr a.client_id ++ "," ++
  four_precision_number_format a.available ++ "," ++
  four_precision_number_format a.held ++ "," ++
  four_precision_number_format a.total ++ "," ++
  (if a.locked then "true" else "false")

/-- `write_accounts`: CSV header then one row per account, in the order
the account list is given. -/
def write_accounts (accounts : List Account) : String :=
  "client,available,held,total,locked\n" ++
  String.join (accounts.map (fun a => accountRow a ++ "\n"))

/-! ### Derived notions the claims quantify over -/

/-- The balance-sheet equation of one account: `total == available + held`. -/
def BalEq (a : Account) : Prop :=
  a.total = a.available + a.held

/-- The balance-sheet equation holds for every account of the engine. -/
def BalInv (e : Engine) : Prop :=
  ∀ p ∈ e.client_account, BalEq p.2

/-- Every stored account's `client_id` field agrees with its map key
(true of every engine state the program builds: accounts are only created
by the `or_insert_with` closure, which copies the key into the field). -/
def KeysWf (e : Engine) : Prop :=
  ∀ p ∈ e.client_account, p.2.client_id = p.1

/-- Account `c` exists and its `locked` flag is set. -/
def LockedAt (e : Engine) (c : Nat) : Prop :=
  ∃ a, getAccount e c = some a ∧ a.locked = true

/-- The `available` balance of client `c` (zero when no account exists,
matching the zero-balance account the engine would lazily create). -/
def availableOf (e : Engine) (c : Nat) : ℚ :=
  ((getAccount e c).getD (Account.fresh c)).available

/-- The `held` balance of client `c`, zero when no account exists. -/
def heldOf (e : Engine) (c : Nat) : ℚ :=
  ((getAccount e c).getD (Account.fresh c)).held

/-- Setting the `locked` flag of the account stored under `c`. -/
def lockAccount (e : Engine) (c : Nat) : Engine :=
  updateAccount e c (fun a => { a with locked := true })

/-! ### Basic lemmas about the state helpers -/

theorem lookupAccount_append (l : List (Nat × Account)) (p : Nat × Account) (c : Nat) :
    lookupAccount (l ++ [p]) c =
      match lookupAccount l c with
      | some a => some a
      | none => if p.1 = c then some p.2 else none := by
  induction l with
  | nil => simp [lookupAccount]
  | cons q l ih =>
      by_cases hq : q.1 = c
      · simp [lookupAccount, hq]
      · simpa [lookupAccount, hq] using ih

@[simp]
theorem lookupAccount_updateEntries (l : List (Nat × Account)) (c c' : Nat)
    (f : Account → Account) :
    lookupAccount (updateEntries l c f) c' =
      if c' = c then (lookupAccount l c').map f else lookupAccount l c' := by
  induction l with
  | nil => simp [updateEntries, lookupAccount]
  | cons q l ih =>
      rw [updateEntries]
      by_cases hq : q.1 = c
      · by_cases hqc : q.1 = c'
        · have hcc : c' = c := hqc ▸ hq
          simp [lookupAccount, hq, hqc, hcc]
        · have hcc : ¬ c' = c := fun h => hqc (h ▸ hq)
          have hcc' : ¬ c = c' := fun h => hcc h.symm
          simp [lookupAccount, hq, hqc, hcc, hcc', ih]
      · by_cases hqc : q.1 = c'
        · have hcc : ¬ c' = c := fun h => hq (h ▸ hqc)
          simp [lookupAccount, hq, hqc, hcc]
        · simp [lookupAccount, hq, hqc, ih]

theorem mem_updateEntries {l : List (Nat × Account)} {c : Nat} {f : Account → Account}
    {p : Nat × Account} (hp : p ∈ updateEntries l c f) :
    ∃ q ∈ l, p = (if q.1 = c then (q.1, f q.2) else q) := by
  induction l with
  | nil => simp [updateEntries] at hp
  | cons q l ih =>
      rw [updateEntries] at hp
      rcases List.mem_cons.1 hp with hp | hp
      · exact ⟨q, List.mem_cons_self q l, hp⟩
      · rcases ih hp with ⟨r, hr, he⟩
        exact ⟨r, List.mem_cons_of_mem q hr, he⟩

@[simp]
theorem reg_ensure (e : Engine) (c : Nat) :
    (ensureAccount e c).transaction_under_dispute = e.transaction_under_dispute := by
  unfold ensureAccount
  cases getAccount e c <;> rfl

@[simp]
theorem reg_update (e : Engine) (c : Nat) (f : Account → Account) :
    (updateAccount e c f).transaction_under_dispute = e.transaction_under_dispute := rfl

@[simp]
theorem acc_update (e : Engine) (c : Nat) (f : Account → Account) :
    (updateAccount e c f).client_account = updateEntries e.client_account c f := rfl

theorem getAccount_update (e : Engine) (c c' : Nat) (f : Account → Account) :
    getAccount (updateAccount e c f) c' =
      if c' = c then (getAccount e c').map f else getAccount e c' := by
  simp [getAccount, updateAccount]

theorem getAccount_ensure_self (e : Engine) (c : Nat) :
    getAccount (ensureAccount e c) c =
      some ((getAccount e c).getD (Account.fresh c)) := by
  unfold ensureAccount
  cases h : getAccount e c with
  | some a => simp [h]
  | none =>
      simp only [Option.getD_none]
      show lookupAccount (e.client_account ++ [(c, Account.fresh c)]) c = _
      rw [lookupAccount_append]
      simp [getAccount] at h
      simp [h]

theorem getAccount_ensure_of_some {e : Engine} {c' : Nat} {a : Account}
    (h : getAccount e c' = some a) (c : Nat) :
    getAccount (ensureAccount e c) c' = some a := by
  unfold ensureAccount
  cases hc : getAccount e c with
  | some _ => exact h
  | none =>
      show lookupAccount (e.client_account ++ [(c, Account.fresh c)]) c' = _
      rw [lookupAccount_append]
      simp [getAccount] at h
      simp [h]

theorem getAccount_ensure_isSome (e : Engine) (c : Nat) :
    (getAccount (ensureAccount e c) c).isSome := by
  rw [getAccount_ensure_self]; rfl

/-! ### Preservation of the balance-sheet equation (claim C1) -/

theorem balEq_fresh (c : Nat) : BalEq (Account.fresh c) := by
  simp [BalEq, Account.fresh]

theorem balInv_init : BalInv Engine.init := by
  intro p hp
  simp [Engine.init] at hp

theorem balInv_ensure {e : Engine} (h : BalInv e) (c : Nat) :
    BalInv (ensureAccount e c) := by
  unfold ensureAccount
  cases hc : getAccount e c with
  | some a => exact h
  | none =>
      intro p hp
      rcases List.mem_append.1 hp with hp | hp
      · exact h p hp
      · rcases List.mem_singleton.1 hp with rfl
        exact balEq_fresh c

theorem balInv_update {e : Engine} (h : BalInv e) (c : Nat) {f : Account → Account}
    (hf : ∀ a, BalEq a → BalEq (f a)) : BalInv (updateAccount e c f) := by
  intro p hp
  rcases mem_updateEntries hp with ⟨q, hq, rfl⟩
  by_cases hqc : q.1 = c
  · simpa [hqc] using hf q.2 (h q hq)
  · simpa [hqc] using h q hq

theorem balInv_dispatchTx {e : Engine} (h : BalInv e) (all : List Transaction)
    (tr : Transaction) : BalInv (dispatchTx all e tr).1 := by
  unfold dispatchTx
  split
  · exact h
  · exact balInv_update h _ (fun a ha => by simp [BalEq] at *; linarith)
  · split
    · exact h
    · split
      · exact h
      · exact balInv_update h _ (fun a ha => by simp [BalEq] at *; linarith)
  · split
    · exact h
    · exact balInv_update h _ (fun a ha => by simp [BalEq] at *; linarith)
  · split
    · exact h
    · split
      · exact balInv_update h _ (fun a ha => by simp [BalEq] at *; linarith)
      · exact h
  · split
    · exact h
    · split
      · exact balInv_update h _ (fun a ha => by simp [BalEq] at *; linarith)
      · exact h

theorem balInv_applyTx {e : Engine} (h : BalInv e) (all : List Transaction)
    (tr : Transaction) : BalInv (applyTx all e tr).1 :=
  balInv_dispatchTx (balInv_ensure h tr.client_id) all tr

theorem balInv_processFrom {e : Engine} (h : BalInv e) (all rest : List Transaction) :
    BalInv (processFrom all e rest).1 := by
  induction rest generalizing e with
  | nil => simpa [processFrom] using h
  | cons tr rest ih =>
      have hstep := balInv_applyTx h all tr
      rw [processFrom]
      rcases happ : applyTx all e tr with ⟨e', err⟩
      rw [happ] at hstep
      cases err with
      | none => exact ih hstep
      | some er => exact hstep

/-! ### Key/field agreement of the account map -/

theorem lookupAccount_mem {l : List (Nat × Account)} {c : Nat} {a : Account}
    (h : lookupAccount l c = some a) : (c, a) ∈ l := by
  induction l with
  | nil => simp [lookupAccount] at h
  | cons q l ih =>
      rw [lookupAccount] at h
      by_cases hq : q.1 = c
      · rw [if_pos hq] at h
        obtain rfl : q.2 = a := Option.some.inj h
        exact hq ▸ List.mem_cons_self q l
      · rw [if_neg hq] at h
        exact List.mem_cons_of_mem q (ih h)

theorem keysWf_getAccount {e : Engine} (hwf : KeysWf e) {c : Nat} {a : Account}
    (h : getAccount e c = some a) : a.client_id = c :=
  hwf (c, a) (lookupAccount_mem h)

theorem keysWf_ensure {e : Engine} (hwf : KeysWf e) (c : Nat) :
    KeysWf (ensureAccount e c) := by
  unfold ensureAccount
  cases hc : getAccount e c with
  | some a => exact hwf
  | none =>
      intro p hp
      rcases List.mem_append.1 hp with hp | hp
      · exact hwf p hp
      · rcases List.mem_singleton.1 hp with rfl
        rfl

/-! ### Claim theorems -/

/-- C1: for every account in the engine's state, after processing any
prefix of any transaction stream (so at every observation point of a run
of `process_transactions`), the equation `total = available + held` holds
exactly. -/
theorem c1_total_eq_available_add_held (txs : List Transaction) (k : Nat) :
    BalInv (processFrom txs Engine.init (txs.take k)).1 :=
  balInv_processFrom balInv_init txs (txs.take k)

/-- C2: a `Withdrawal` applied to an account whose available funds are
strictly below the withdrawal amount makes `process_transactions` stop
with an `InsufficientFunds` error naming the client id; nothing after the
failing transaction is applied (the result does not depend on `rest`),
and the engine state at the stop is exactly the pre-withdrawal state with
the account at most lazily created. -/
theorem c2_insufficient_withdrawal_aborts (all : List Transaction) (e : Engine)
    (w : Transaction) (rest : List Transaction)
    (hwf : KeysWf e) (hk : w.kind = "withdrawal")
    (hlt : availableOf (ensureAccount e w.client_id) w.client_id < w.amount) :
    processFrom all e (w :: rest) =
      (ensureAccount e w.client_id, some (ProcError.insufficientFunds w.client_id)) := by
  have ha := getAccount_ensure_self e w.client_id
  have hacid : ((getAccount e w.client_id).getD (Account.fresh w.client_id)).client_id
      = w.client_id :=
    keysWf_getAccount (keysWf_ensure hwf w.client_id) ha
  have hlt' : ((getAccount e w.client_id).getD (Account.fresh w.client_id)).available
      < w.amount := by
    simpa [availableOf, ha] using hlt
  have happ : applyTx all e w =
      (ensureAccount e w.client_id, some (ProcError.insufficientFunds w.client_id)) := by
    unfold applyTx dispatchTx
    rw [hk]
    simp only [TransactionType.from_str]
    rw [ha]
    simp [hlt', hacid]
  rw [processFrom, happ]

/-- Witness for C2 at a concrete input: a withdrawal of 5 from a fresh
zero-balance client aborts with `InsufficientFunds 1`. -/
theorem c2_witness :
    processFrom [] Engine.init [⟨"withdrawal", 1, 1, 5⟩] =
      (ensureAccount Engine.init 1, some (ProcError.insufficientFunds 1)) :=
  c2_insufficient_withdrawal_aborts [] Engine.init ⟨"withdrawal", 1, 1, 5⟩ []
    (by intro p hp; simp [Engine.init] at hp) rfl
    (by norm_num [availableOf, ensureAccount, getAccount, lookupAccount, Engine.init,
          Account.fresh])

/-- C3 (evaluation at the failing input): a stream holding one Dispute
whose transaction id belongs to no Deposit/Withdrawal anywhere is NOT a
silent no-op: the `position` lookup matches the Dispute row itself, its
`amount` field (3 here) is moved from `available` to `held`, and the
Dispute's own index enters the dispute registry.  The claimed behaviour
(no-op beyond lazy account creation) would leave the account at zero
balances and the registry empty. -/
theorem c3_lone_dispute_not_noop :
    process_transactions [⟨"dispute", 1, 7, 3⟩] =
      (⟨[(1, ⟨1, -3, 3, 0, false⟩)], [0]⟩, none) ∧
    (⟨[(1, ⟨1, -3, 3, 0, false⟩)], [0]⟩ : Engine) ≠ ⟨[(1, Account.fresh 1)], []⟩ := by
  constructor
  · norm_num [process_transactions, processFrom, applyTx, dispatchTx, ensureAccount,
      getAccount, lookupAccount, updateAccount, updateEntries, findTx, regInsert,
      TransactionType.from_str, Account.fresh, Engine.init]
  · simp [Account.fresh]

/-- C10: Dispute is not idempotent: a Deposit of `a` followed by two
Disputes of its transaction id moves the amount from `available` to
`held` twice — `available` ends at `-a` (twice `a` below the
post-deposit balance `a`) and `held` at `2 * a`; `total` keeps the
deposited `a`. -/
theorem c10_double_dispute_moves_amount_twice (c tid : Nat) (a : ℚ) :
    process_transactions
        [⟨"deposit", c, tid, a⟩, ⟨"dispute", c, tid, 0⟩, ⟨"dispute", c, tid, 0⟩] =
      (⟨[(c, ⟨c, -a, 2 * a, a, false⟩)], [0]⟩, none) := by
  norm_num [process_transactions, processFrom, applyTx, dispatchTx, ensureAccount,
    getAccount, lookupAccount, updateAccount, updateEntries, findTx, regInsert,
    TransactionType.from_str, Account.fresh, Engine.init]
  ring

/-- C9 (counterexample): decoding does not reject invalid kind strings —
the decoded record type carries `kind` as a plain string — and the
engine's kind dispatch DOES fail for such a record: a transaction with
kind `"foo"` reaches the dispatch and aborts the run with the
invalid-kind failure (the `unwrap()` panic in the source), after lazily
creating the account. -/
theorem c9_counterexample :
    TransactionType.from_str "foo" = .error "foo" ∧
    process_transactions [⟨"foo", 1, 1, 0⟩] =
      (⟨[(1, Account.fresh 1)], []⟩, some (ProcError.invalidKind "foo")) := by
  constructor
  · rfl
  · decide

/-- C9 (amended): a transaction whose kind is one of the five recognised
strings never makes the engine fail on the kind field: the dispatch
outcome is never an invalid-kind error. -/
theorem c9_amended_valid_kind_never_kind_error (all : List Transaction) (e : Engine)
    (tr : Transaction) (s : String)
    (h : tr.kind = "deposit" ∨ tr.kind = "withdrawal" ∨ tr.kind = "dispute" ∨
         tr.kind = "resolve" ∨ tr.kind = "chargeback") :
    (applyTx all e tr).2 ≠ some (ProcError.invalidKind s) := by
  unfold applyTx dispatchTx
  rcases h with h | h | h | h | h <;>
    rw [h] <;> simp only [TransactionType.from_str] <;>
    (repeat' split) <;> simp

/-- Witness for C9 (amended) at a concrete input. -/
theorem c9_amended_witness :
    (applyTx [] Engine.init ⟨"deposit", 1, 1, 0⟩).2 ≠
      some (ProcError.invalidKind "deposit") :=
  c9_amended_valid_kind_never_kind_error [] Engine.init ⟨"deposit", 1, 1, 0⟩
    "deposit" (Or.inl rfl)

/-- C4 (counterexample): stream `[Dispute(client 1, tx 5, amount 3),
Deposit(client 1, tx 5, amount 10)]` — the only Deposit/Withdrawal with
id 5 comes after the Dispute, so the claim would have the Dispute be a
no-op, leaving `available = 10` and an empty registry at the end.  The
code instead matches the Dispute row itself, moves its amount field and
registers index 0: final `available = 7`, registry `[0]`. -/
theorem c4_counterexample :
    process_transactions [⟨"dispute", 1, 5, 3⟩, ⟨"deposit", 1, 5, 10⟩] =
      (⟨[(1, ⟨1, 7, 3, 10, false⟩)], [0]⟩, none) ∧
    availableOf (⟨[(1, ⟨1, 7, 3, 10, false⟩)], [0]⟩ : Engine) 1 ≠ 10 ∧
    (⟨[(1, ⟨1, 7, 3, 10, false⟩)], [0]⟩ : Engine).transaction_under_dispute ≠ [] := by
  refine ⟨?_, by decide, by decide⟩
  norm_num [process_transactions, processFrom, applyTx, dispatchTx, ensureAccount,
    getAccount, lookupAccount, updateAccount, updateEntries, findTx, regInsert,
    TransactionType.from_str, Account.fresh, Engine.init]

/-- The whole-stream `position` lookup succeeds whenever any transaction
of the stream carries the id — in particular for the id carried by the
referencing row itself. -/
theorem findTx_isSome_of_mem {l : List Transaction} {tid : Nat}
    (h : ∃ t ∈ l, t.transaction_id = tid) (i : Nat) :
    ∃ j orig, findTx l tid i = some (j, orig) := by
  induction l generalizing i with
  | nil => simp at h
  | cons t l ih =>
      rw [findTx]
      by_cases ht : t.transaction_id = tid
      · exact ⟨i, t, by rw [if_pos ht]⟩
      · rw [if_neg ht]
        rcases h with ⟨u, hu, hid⟩
        rcases List.mem_cons.1 hu with rfl | hu
        · exact absurd hid ht
        · exact ih ⟨u, hu, hid⟩ (i + 1)

/-- C4 (amended): the dispute lookup scans the entire stream, not the
processed prefix, and a Dispute row itself carries the referenced id, so
a Dispute drawn from the stream is never treated as "not found": the
lookup yields some first occurrence `(i, orig)` of the id, `orig.amount`
moves from `available` to `held` on the event's client, and `i` enters
the dispute registry. -/
theorem c4_amended_dispute_never_not_found (all : List Transaction) (e : Engine)
    (tr : Transaction) (hmem : tr ∈ all) (hk : tr.kind = "dispute") :
    ∃ i orig, findTx all tr.transaction_id 0 = some (i, orig) ∧
      applyTx all e tr =
        ({ updateAccount (ensureAccount e tr.client_id) tr.client_id (fun a =>
            { a with available := a.available - orig.amount,
                     held := a.held + orig.amount }) with
           transaction_under_dispute :=
             regInsert e.transaction_under_dispute i }, none) := by
  obtain ⟨i, orig, hf⟩ := findTx_isSome_of_mem ⟨tr, hmem, rfl⟩ 0
  refine ⟨i, orig, hf, ?_⟩
  unfold applyTx dispatchTx
  rw [hk]
  simp only [TransactionType.from_str]
  rw [hf]
  simp

/-- Witness for C4 (amended) at a concrete input. -/
theorem c4_amended_witness :
    ∃ i orig, findTx [⟨"dispute", 1, 5, 3⟩] 5 0 = some (i, orig) ∧
      applyTx [⟨"dispute", 1, 5, 3⟩] Engine.init ⟨"dispute", 1, 5, 3⟩ =
        ({ updateAccount (ensureAccount Engine.init 1) 1 (fun a =>
            { a with available := a.available - orig.amount,
                     held := a.held + orig.amount }) with
           transaction_under_dispute := regInsert Engine.init.transaction_under_dispute i },
         none) :=
  c4_amended_dispute_never_not_found [⟨"dispute", 1, 5, 3⟩] Engine.init
    ⟨"dispute", 1, 5, 3⟩ (List.mem_singleton.2 rfl) rfl

/-- C5 (counterexample): in the stream `[Dispute(client 1, tx 9, amount 4),
Resolve(client 1, tx 9)]` no Deposit or Withdrawal carries id 9, so the
Resolve references an unknown transaction id and the claim requires it to
be a silent no-op.  The code instead finds the Dispute row (index 0,
which the Dispute had registered), removes it from the registry and moves
4 back from `held` to `available`: `held` drops from 4 to 0. -/
theorem c5_counterexample :
    heldOf (process_transactions [⟨"dispute", 1, 9, 4⟩]).1 1 = 4 ∧
    heldOf (process_transactions [⟨"dispute", 1, 9, 4⟩, ⟨"resolve", 1, 9, 0⟩]).1 1 = 0 ∧
    (∀ t ∈ [Transaction.mk "dispute" 1 9 4, Transaction.mk "resolve" 1 9 0],
        t.kind ≠ "deposit" ∧ t.kind ≠ "withdrawal") := by
  refine ⟨?_, ?_, by decide⟩ <;>
    norm_num [process_transactions, processFrom, applyTx, dispatchTx, ensureAccount,
      getAccount, lookupAccount, updateAccount, updateEntries, findTx, regInsert,
      TransactionType.from_str, Account.fresh, Engine.init, heldOf]

/-- C5 (amended): a Resolve or Chargeback whose looked-up stream index is
not currently in the dispute registry — which covers every id already
removed from the registry by an earlier Resolve/Chargeback — is a silent
no-op: beyond the lazy creation of the event's account, balances and
registry are untouched, no error is raised, and processing continues with
the rest of the stream. -/
theorem c5_amended_unregistered_resolve_chargeback_noop (all : List Transaction)
    (e : Engine) (tr : Transaction) (rest : List Transaction)
    (hk : tr.kind = "resolve" ∨ tr.kind = "chargeback")
    (hreg : ∀ i orig, findTx all tr.transaction_id 0 = some (i, orig) →
        i ∉ e.transaction_under_dispute) :
    processFrom all e (tr :: rest) =
      processFrom all (ensureAccount e tr.client_id) rest := by
  have happ : applyTx all e tr = (ensureAccount e tr.client_id, none) := by
    unfold applyTx dispatchTx
    rcases hk with h | h <;> rw [h] <;> simp only [TransactionType.from_str] <;>
      [skip; skip] <;>
      · cases hf : findTx all tr.transaction_id 0 with
        | none => rfl
        | some p =>
            have hni := hreg p.1 p.2 (by rw [hf])
            simp [hni]
  rw [processFrom, happ]

/-- Witness for C5 (amended) at a concrete input: a Resolve on a fresh
engine (empty registry) leaves processing as if only the lazy account
creation had happened. -/
theorem c5_amended_witness :
    processFrom [⟨"resolve", 1, 1, 0⟩] Engine.init [⟨"resolve", 1, 1, 0⟩] =
      processFrom [⟨"resolve", 1, 1, 0⟩] (ensureAccount Engine.init 1) [] :=
  c5_amended_unregistered_resolve_chargeback_noop [⟨"resolve", 1, 1, 0⟩] Engine.init
    ⟨"resolve", 1, 1, 0⟩ [] (Or.inl rfl)
    (fun i _ _ => List.not_mem_nil i)

/-! ### Permanence of the locked flag -/

theorem lockedAt_setReg {e : Engine} {c : Nat} (h : LockedAt e c) (r : List Nat) :
    LockedAt { e with transaction_under_dispute := r } c := h

theorem lockedAt_ensure {e : Engine} {c : Nat} (h : LockedAt e c) (c' : Nat) :
    LockedAt (ensureAccount e c') c := by
  rcases h with ⟨a, ha, hl⟩
  exact ⟨a, getAccount_ensure_of_some ha c', hl⟩

theorem lockedAt_update {e : Engine} {c : Nat} (h : LockedAt e c) (c' : Nat)
    {f : Account → Account} (hf : ∀ b, b.locked = true → (f b).locked = true) :
    LockedAt (updateAccount e c' f) c := by
  rcases h with ⟨a, ha, hl⟩
  rw [LockedAt]
  rw [getAccount_update]
  by_cases hc : c = c'
  · exact ⟨f a, by rw [if_pos hc, ha]; rfl, hf a hl⟩
  · exact ⟨a, by rw [if_neg hc]; exact ha, hl⟩

theorem lockedAt_dispatchTx {e : Engine} {c : Nat} (h : LockedAt e c)
    (all : List Transaction) (tr : Transaction) :
    LockedAt (dispatchTx all e tr).1 c := by
  unfold dispatchTx
  split
  · exact h
  · exact lockedAt_update h _ (fun b hb => hb)
  · split
    · exact h
    · split
      · exact h
      · exact lockedAt_update h _ (fun b hb => hb)
  · split
    · exact h
    · dsimp only
      refine lockedAt_setReg (lockedAt_update h _ ?_) _
      intro b hb
      exact hb
  · split
    · exact h
    · split
      · dsimp only
        refine lockedAt_setReg (lockedAt_update h _ ?_) _
        intro b hb
        exact hb
      · exact h
  · split
    · exact h
    · split
      · dsimp only
        refine lockedAt_setReg (lockedAt_update h _ ?_) _
        intro b _
        rfl
      · exact h

theorem lockedAt_applyTx {e : Engine} {c : Nat} (h : LockedAt e c)
    (all : List Transaction) (tr : Transaction) :
    LockedAt (applyTx all e tr).1 c :=
  lockedAt_dispatchTx (lockedAt_ensure h tr.client_id) all tr

theorem lockedAt_processFrom {e : Engine} {c : Nat} (h : LockedAt e c)
    (all rest : List Transaction) :
    LockedAt (processFrom all e rest).1 c := by
  induction rest generalizing e with
  | nil => simpa [processFrom] using h
  | cons tr rest ih =>
      have hstep := lockedAt_applyTx h all tr
      rw [processFrom]
      rcases happ : applyTx all e tr with ⟨e', err⟩
      rw [happ] at hstep
      cases err with
      | none => exact ih hstep
      | some er => exact hstep

/-- C6: a Chargeback whose looked-up transaction is currently disputed
removes that index from the dispute registry, decreases `held` and
`total` by the original amount, leaves `available` unchanged (the update
touches no other account field), sets the account's `locked` flag — and
once set, the flag survives the processing of every subsequent
transaction stream. -/
theorem c6_chargeback_effects_and_lock_permanent (all : List Transaction) (e : Engine)
    (tr : Transaction) (rest : List Transaction) (i : Nat) (orig : Transaction)
    (a : Account)
    (hk : tr.kind = "chargeback")
    (hf : findTx all tr.transaction_id 0 = some (i, orig))
    (hd : i ∈ e.transaction_under_dispute)
    (ha : getAccount (ensureAccount e tr.client_id) tr.client_id = some a) :
    applyTx all e tr =
      ({ updateAccount (ensureAccount e tr.client_id) tr.client_id (fun b =>
          { b with held := b.held - orig.amount, total := b.total - orig.amount,
                   locked := true }) with
         transaction_under_dispute := e.transaction_under_dispute.erase i }, none) ∧
    getAccount (applyTx all e tr).1 tr.client_id =
      some { a with held := a.held - orig.amount, total := a.total - orig.amount,
                    locked := true } ∧
    LockedAt (processFrom all (applyTx all e tr).1 rest).1 tr.client_id := by
  have happ : applyTx all e tr =
      ({ updateAccount (ensureAccount e tr.client_id) tr.client_id (fun b =>
          { b with held := b.held - orig.amount, total := b.total - orig.amount,
                   locked := true }) with
         transaction_under_dispute := e.transaction_under_dispute.erase i }, none) := by
    unfold applyTx dispatchTx
    rw [hk]
    simp only [TransactionType.from_str]
    rw [hf]
    simp [hd]
  have hget : getAccount (applyTx all e tr).1 tr.client_id =
      some { a with held := a.held - orig.amount, total := a.total - orig.amount,
                    locked := true } := by
    rw [happ]
    show getAccount (updateAccount (ensureAccount e tr.client_id) tr.client_id _)
        tr.client_id = _
    rw [getAccount_update, if_pos rfl, ha]
    rfl
  exact ⟨happ, hget,
    lockedAt_processFrom ⟨_, hget, rfl⟩ all rest⟩

/-- Witness for C6 at a concrete input: chargeback of a disputed deposit
of 10. -/
theorem c6_witness :
    applyTx [⟨"deposit", 1, 1, 10⟩] ⟨[(1, ⟨1, 0, 10, 10, false⟩)], [0]⟩
        ⟨"chargeback", 1, 1, 0⟩ =
      ({ updateAccount
          (ensureAccount (⟨[(1, ⟨1, 0, 10, 10, false⟩)], [0]⟩ : Engine) 1) 1 (fun b =>
            { b with held := b.held - (10 : ℚ), total := b.total - (10 : ℚ),
                     locked := true }) with
         transaction_under_dispute := List.erase [0] 0 }, none) ∧
    getAccount (applyTx [⟨"deposit", 1, 1, 10⟩] ⟨[(1, ⟨1, 0, 10, 10, false⟩)], [0]⟩
        ⟨"chargeback", 1, 1, 0⟩).1 1 =
      some ⟨1, 0, (10 : ℚ) - 10, (10 : ℚ) - 10, true⟩ ∧
    LockedAt (processFrom [⟨"deposit", 1, 1, 10⟩]
        (applyTx [⟨"deposit", 1, 1, 10⟩] ⟨[(1, ⟨1, 0, 10, 10, false⟩)], [0]⟩
          ⟨"chargeback", 1, 1, 0⟩).1 []).1 1 :=
  c6_chargeback_effects_and_lock_permanent [⟨"deposit", 1, 1, 10⟩]
    ⟨[(1, ⟨1, 0, 10, 10, false⟩)], [0]⟩ ⟨"chargeback", 1, 1, 0⟩ [] 0
    ⟨"deposit", 1, 1, 10⟩ ⟨1, 0, 10, 10, false⟩ rfl (by decide) (by decide)
    (by simp [ensureAccount, getAccount, lookupAccount])

/-! ### The locked flag conditions no behaviour (claim C7) -/

theorem updateEntries_append (l l' : List (Nat × Account)) (c : Nat)
    (f : Account → Account) :
    updateEntries (l ++ l') c f = updateEntries l c f ++ updateEntries l' c f := by
  induction l with
  | nil => simp [updateEntries]
  | cons p l ih => rw [List.cons_append, updateEntries, updateEntries, ih, List.cons_append]

theorem updateEntries_updateEntries_same (l : List (Nat × Account)) (c : Nat)
    (f g : Account → Account) :
    updateEntries (updateEntries l c f) c g = updateEntries l c (fun a => g (f a)) := by
  induction l with
  | nil => rfl
  | cons p l ih =>
      rw [updateEntries, updateEntries, updateEntries]
      by_cases hp : p.1 = c
      · simp [hp, ih]
      · simp [hp, ih]

theorem updateEntries_comm_ne (l : List (Nat × Account)) {c c' : Nat} (h : c ≠ c')
    (f g : Account → Account) :
    updateEntries (updateEntries l c f) c' g = updateEntries (updateEntries l c' g) c f := by
  induction l with
  | nil => rfl
  | cons p l ih =>
      rw [updateEntries, updateEntries, updateEntries, updateEntries]
      by_cases hp : p.1 = c
      · have hp' : ¬ p.1 = c' := fun hq => h (hp ▸ hq)
        simp [hp, hp', ih, h]
      · by_cases hp' : p.1 = c'
        · simp [hp, hp', ih, Ne.symm h]
        · simp [hp, hp', ih]

theorem lockAccount_setReg (e : Engine) (c : Nat) (r : List Nat) :
    lockAccount { e with transaction_under_dispute := r } c =
      { lockAccount e c with transaction_under_dispute := r } := rfl

theorem getAccount_lock (e : Engine) (c c' : Nat) :
    getAccount (lockAccount e c) c' =
      if c' = c then (getAccount e c').map (fun a => { a with locked := true })
      else getAccount e c' :=
  getAccount_update e c c' _

theorem update_lock_comm (e : Engine) (c c' : Nat) {f : Account → Account}
    (hcomm : ∀ a, f { a with locked := true } = { f a with locked := true }) :
    updateAccount (lockAccount e c) c' f = lockAccount (updateAccount e c' f) c := by
  unfold lockAccount updateAccount
  by_cases hc : c = c'
  · subst hc
    show Engine.mk (updateEntries (updateEntries e.client_account c _) c f) _ = _
    rw [updateEntries_updateEntries_same, updateEntries_updateEntries_same]
    have : (fun a => f { a with locked := true }) =
        (fun a => ({ f a with locked := true } : Account)) := funext hcomm
    rw [this]
  · show Engine.mk (updateEntries (updateEntries e.client_account c _) c' f) _ = _
    rw [updateEntries_comm_ne _ hc]

theorem ensure_lock_comm {e : Engine} {c : Nat} (h : (getAccount e c).isSome)
    (c' : Nat) :
    ensureAccount (lockAccount e c) c' = lockAccount (ensureAccount e c') c := by
  unfold ensureAccount
  cases hc' : getAccount e c' with
  | some a =>
      have : getAccount (lockAccount e c) c' =
          if c' = c then (getAccount e c').map (fun b => { b with locked := true })
          else getAccount e c' := getAccount_lock e c c'
      by_cases hcc : c' = c
      · rw [this, if_pos hcc, hc']
        rfl
      · rw [this, if_neg hcc, hc']
  | none =>
      have hcc : ¬ c' = c := by
        intro hq
        rw [hq] at hc'
        rw [hc'] at h
        exact Bool.noConfusion h
      rw [getAccount_lock, if_neg hcc, hc']
      show Engine.mk (updateEntries e.client_account c _ ++ [(c', Account.fresh c')]) _ =
        Engine.mk (updateEntries (e.client_account ++ [(c', Account.fresh c')]) c _) _
      rw [updateEntries_append]
      rw [updateEntries]
      rw [if_neg (fun hq : c' = c => hcc hq)]
      rfl

theorem dispatchTx_lock {e : Engine} {c : Nat} (h : (getAccount e c).isSome)
    (all : List Transaction) (tr : Transaction) :
    dispatchTx all (lockAccount e c) tr =
      (lockAccount (dispatchTx all e tr).1 c, (dispatchTx all e tr).2) := by
  unfold dispatchTx
  cases hk : TransactionType.from_str tr.kind with
  | error s => rfl
  | ok ty =>
      cases ty with
      | deposit =>
          dsimp only
          rw [update_lock_comm e c tr.client_id (fun a => rfl)]
      | withdrawal =>
          dsimp only
          rw [getAccount_lock]
          by_cases hcc : tr.client_id = c
          · subst hcc
            obtain ⟨ea, hea⟩ := Option.isSome_iff_exists.1 h
            rw [hea, if_pos rfl]
            dsimp only [Option.map_some']
            by_cases hlt : ea.available < tr.amount
            · rw [if_pos hlt, if_pos hlt]
            · rw [if_neg hlt, if_neg hlt]
              dsimp only
              rw [update_lock_comm e tr.client_id tr.client_id (fun a => rfl)]
          · rw [if_neg hcc]
            cases ha : getAccount e tr.client_id with
            | none => rfl
            | some a =>
                dsimp only
                by_cases hlt : a.available < tr.amount
                · rw [if_pos hlt, if_pos hlt]
                · rw [if_neg hlt, if_neg hlt]
                  dsimp only
                  rw [update_lock_comm e c tr.client_id (fun b => rfl)]
      | dispute =>
          dsimp only
          cases hf : findTx all tr.transaction_id 0 with
          | none => rfl
          | some p =>
              obtain ⟨i, orig⟩ := p
              dsimp only
              rw [update_lock_comm e c tr.client_id (fun b => rfl)]
              rfl
      | resolve =>
          dsimp only
          cases hf : findTx all tr.transaction_id 0 with
          | none => rfl
          | some p =>
              obtain ⟨i, orig⟩ := p
              dsimp only
              show (if i ∈ e.transaction_under_dispute then _ else _) = _
              by_cases hi : i ∈ e.transaction_under_dispute
              · rw [if_pos hi, if_pos hi]
                dsimp only
                rw [update_lock_comm e c tr.client_id (fun b => rfl)]
                rfl
              · rw [if_neg hi, if_neg hi]
      | chargeback =>
          dsimp only
          cases hf : findTx all tr.transaction_id 0 with
          | none => rfl
          | some p =>
              obtain ⟨i, orig⟩ := p
              dsimp only
              show (if i ∈ e.transaction_under_dispute then _ else _) = _
              by_cases hi : i ∈ e.transaction_under_dispute
              · rw [if_pos hi, if_pos hi]
                dsimp only
                rw [update_lock_comm e c tr.client_id (fun b => rfl)]
                rfl
              · rw [if_neg hi, if_neg hi]

theorem getAccount_ensure_isSome_of {e : Engine} {c : Nat}
    (h : (getAccount e c).isSome) (c' : Nat) :
    (getAccount (ensureAccount e c') c).isSome := by
  obtain ⟨a, ha⟩ := Option.isSome_iff_exists.1 h
  rw [getAccount_ensure_of_some ha c']
  rfl

theorem applyTx_lock {e : Engine} {c : Nat} (h : (getAccount e c).isSome)
    (all : List Transaction) (tr : Transaction) :
    applyTx all (lockAccount e c) tr =
      (lockAccount (applyTx all e tr).1 c, (applyTx all e tr).2) := by
  unfold applyTx
  rw [ensure_lock_comm h tr.client_id]
  exact dispatchTx_lock (getAccount_ensure_isSome_of h tr.client_id) all tr

theorem getAccount_dispatchTx_isSome {e : Engine} {c : Nat}
    (h : (getAccount e c).isSome) (all : List Transaction) (tr : Transaction) :
    (getAccount (dispatchTx all e tr).1 c).isSome := by
  have hupd : ∀ (c' : Nat) (f : Account → Account),
      (getAccount (updateAccount e c' f) c).isSome := by
    intro c' f
    rw [getAccount_update]
    by_cases hc : c = c'
    · rw [if_pos hc]
      obtain ⟨a, ha⟩ := Option.isSome_iff_exists.1 h
      rw [ha]
      rfl
    · rw [if_neg hc]
      exact h
  unfold dispatchTx
  split
  · exact h
  · exact hupd _ _
  · split
    · exact h
    · split
      · exact h
      · exact hupd _ _
  · split
    · exact h
    · dsimp only
      exact hupd _ _
  · split
    · exact h
    · split
      · dsimp only
        exact hupd _ _
      · exact h
  · split
    · exact h
    · split
      · dsimp only
        exact hupd _ _
      · exact h

theorem getAccount_applyTx_isSome {e : Engine} {c : Nat}
    (h : (getAccount e c).isSome) (all : List Transaction) (tr : Transaction) :
    (getAccount (applyTx all e tr).1 c).isSome :=
  getAccount_dispatchTx_isSome (getAccount_ensure_isSome_of h tr.client_id) all tr

/-- C7: the `locked` flag conditions no behaviour of the engine.
Running any remaining stream from a state in which client `c`'s account
has its flag forced to `true` produces exactly the run from the unforced
state with the flag forced on the result: balances, dispute registry,
lazy account creation and the error outcome (including the available
funds check of withdrawals) are identical — deposits and withdrawals to
a locked account apply normally. -/
theorem c7_locked_flag_conditions_nothing (all : List Transaction) (e : Engine)
    (c : Nat) (rest : List Transaction) (h : (getAccount e c).isSome) :
    processFrom all (lockAccount e c) rest =
      (lockAccount (processFrom all e rest).1 c, (processFrom all e rest).2) := by
  induction rest generalizing e with
  | nil => rfl
  | cons tr rest ih =>
      rw [processFrom, processFrom, applyTx_lock h]
      rcases happ : applyTx all e tr with ⟨e', err⟩
      have h' : (getAccount e' c).isSome := by
        have := getAccount_applyTx_isSome h all tr
        rwa [happ] at this
      cases err with
      | none => exact ih e' h'
      | some er => rfl

/-- Witness for C7 at a concrete input: a deposit into a pre-locked
account behaves exactly as into the unlocked one, with the flag carried
over. -/
theorem c7_witness :
    processFrom [⟨"deposit", 1, 1, 3⟩] (lockAccount ⟨[(1, ⟨1, 5, 0, 5, false⟩)], []⟩ 1)
        [⟨"deposit", 1, 1, 3⟩] =
      (lockAccount (processFrom [⟨"deposit", 1, 1, 3⟩] ⟨[(1, ⟨1, 5, 0, 5, false⟩)], []⟩
          [⟨"deposit", 1, 1, 3⟩]).1 1,
       (processFrom [⟨"deposit", 1, 1, 3⟩] ⟨[(1, ⟨1, 5, 0, 5, false⟩)], []⟩
          [⟨"deposit", 1, 1, 3⟩]).2) :=
  c7_locked_flag_conditions_nothing [⟨"deposit", 1, 1, 3⟩]
    ⟨[(1, ⟨1, 5, 0, 5, false⟩)], []⟩ 1 [⟨"deposit", 1, 1, 3⟩]
    (by simp [getAccount, lookupAccount])

/-- C8 (evaluation at the failing input, the repository's own
`testdata/transactions.csv` stream): the encoded output bytes are a
function of the row order handed to the writer — reversing the account
list changes the bytes.  `Engine::get_accounts` iterates a
`std::collections::HashMap` seeded per process, so the Rust program does
not fix that order across runs; the embedding can only pin one order
(insertion order), for which the output matches the byte string the
repository's `test_only_deposit` expects. -/
theorem c8_output_depends_on_map_order :
    write_accounts (get_accounts (process_transactions
        [⟨"deposit", 1, 1, 1.0191⟩, ⟨"deposit", 2, 2, 2.0001⟩]).1) =
      "client,available,held,total,locked\n1,1.0191,0.0000,1.0191,false\n2,2.0001,0.0000,2.0001,false\n" ∧
    write_accounts ((get_accounts (process_transactions
        [⟨"deposit", 1, 1, 1.0191⟩, ⟨"deposit", 2, 2, 2.0001⟩]).1).reverse) ≠
      write_accounts (get_accounts (process_transactions
        [⟨"deposit", 1, 1, 1.0191⟩, ⟨"deposit", 2, 2, 2.0001⟩]).1) := by
  constructor <;>
    · norm_num [process_transactions, processFrom, applyTx, dispatchTx, ensureAccount,
        getAccount, lookupAccount, updateAccount, updateEntries, findTx, regInsert,
        TransactionType.from_str, Account.fresh, Engine.init, get_accounts,
        write_accounts, accountRow, four_precision_number_format, padFour]
      decide

end ToyPayments
